import Mathlib

/-!
The bootstrap runtime of `src/rt/rust.c`.

A shallow embedding of the runtime in `rust.c`: the allocation helpers, stack
segments, process creation with its initial frame, process destruction and the
control-transfer loop of `rust_start`.

* Raw memory is a map from byte addresses to bytes; word cells are `word` bytes
  wide, least significant byte first. Stack segments, header and payload, live
  in raw memory; every store of `rust.c` into a segment is a store into raw
  memory, with no check of any bound.
* The process record and the runtime context are typed records with the fields
  `rust.c` uses. What `rust.h` fixes (the word size, the callee-save count, the
  sizes of the records and the places of `size` and `next` in the segment
  header) are the fields of `Target`.
* `malloc`, `free` and the trampoline `c_to_proc_glue` are external; the answers
  of the allocator are part of the `World`, the trampoline is a parameter, and
  every call of `free` and of the trampoline is recorded in the trace `out`
  together with everything the runtime prints.
* `free` of a block that is not live (never allocated, or released before) has
  no defined behaviour in C; the run ends there with `Fault.invalid_free`.
* Loops that need not end (`rust_del_stk` on a cyclic chain, the loop of
  `rust_start`) take a number of steps; `Outcome.timeout` says it ran out.
-/

namespace Rust

/-! ## Data model -/

/-- Constants of `rust.h`: `sizeof(uintptr_t)`, `rust_n_calee_saves`, the sizes
of the three records, and the offsets of the fields `size` and `next` in
`rust_stk_seg_t`.  They are parameters of every definition. -/
structure Target where
  word : Nat
  rust_n_calee_saves : Nat
  sizeof_stk_seg : Nat
  sizeof_proc : Nat
  sizeof_rt : Nat
  offsetof_size : Nat
  offsetof_next : Nat

/-- Number of values of an `uintptr_t` / `size_t`. -/
def Target.modulus (T : Target) : Nat := 2 ^ (8 * T.word)

/-- The fields `size` and `next`, one word each, lie inside the header of a
stack segment and do not overlap. -/
abbrev Target.header_ok (T : Target) : Prop :=
  T.offsetof_size + T.word ≤ T.sizeof_stk_seg ∧
  T.offsetof_next + T.word ≤ T.sizeof_stk_seg ∧
  (T.offsetof_size + T.word ≤ T.offsetof_next ∨ T.offsetof_next + T.word ≤ T.offsetof_size)

/-- Modelled from the spec: the program descriptor `rust_prog_t` (declared in
`rust.h`), three entry-point addresses. -/
structure rust_prog_t where
  init_code : Nat
  main_code : Nat
  fini_code : Nat
deriving DecidableEq, Repr

/-- Modelled from the spec: the lifecycle states of `rust.h`, of which
`rust.c` names `RUST_PROC_STATE_RUNNING`, `RUST_PROC_STATE_CALLING_C` and
`RUST_PROC_STATE_EXITING`. -/
inductive rust_proc_state_t where
  | RUST_PROC_STATE_RUNNING
  | RUST_PROC_STATE_CALLING_C
  | RUST_PROC_STATE_EXITING
deriving DecidableEq, Repr

export rust_proc_state_t (RUST_PROC_STATE_RUNNING RUST_PROC_STATE_CALLING_C
  RUST_PROC_STATE_EXITING)

/-- Modelled from the spec: the register context `proc->regs`, a program counter
and a stack pointer. -/
structure rust_regs_t where
  pc : Nat
  sp : Nat
deriving DecidableEq, Repr

/-- Modelled from the spec: the process record `rust_proc_t` with the fields
`rust.c` uses.  `stk` and `rt` are addresses, `prog` stands for the descriptor
the pointer `proc->prog` refers to. -/
structure rust_proc_t where
  prog : rust_prog_t
  stk : Nat
  regs : rust_regs_t
  rt : Nat
  state : rust_proc_state_t
  refcnt : Nat
deriving DecidableEq, Repr

/-- Modelled from the spec: the runtime context `rust_rt_t`, a reference to the
one process. -/
structure rust_rt_t where
  proc : Nat
deriving DecidableEq, Repr

/-- What the host can observe, in order: printed lines, calls of `free` and
calls of the trampoline (with the lifecycle state the process has at the
call). -/
inductive Event where
  | print (line : String)
  | logptr (msg : String) (ptrval : Nat)
  | alloc_failed (sz : Nat)
  | log_uint32 (i : Nat)
  | log_str (text : List Nat)
  | free (p : Nat)
  | glue (proc : Nat) (state : rust_proc_state_t)
deriving DecidableEq, Repr

/-- The state of the host process. `mem` is raw memory (bytes by address),
`live` the blocks obtained from `malloc` and not yet given to `free`, `heap`
the answers `malloc` gives next (`0` is `NULL`), `out` the trace. -/
structure World where
  mem : Nat → Nat
  live : List Nat
  heap : List Nat
  out : List Event

/-- Ways in which the host process ends without returning: `exit`, a failed
`assert`, a read through `NULL`, `free` of a block that is not live. -/
inductive Fault where
  | exit (status : Nat)
  | assert_failed
  | invalid_access (addr : Nat)
  | invalid_free (p : Nat)
deriving DecidableEq, Repr

/-- Result of running a function of `rust.c`: it returns, the host process is
terminated, or the step budget of the model ran out. -/
inductive Outcome (α : Type) where
  | ret (a : α) (σ : World)
  | stop (f : Fault) (σ : World)
  | timeout

/-! ## Raw memory -/

/-- Read a cell of `w` bytes at address `a`. -/
def load_word : Nat → (Nat → Nat) → Nat → Nat
  | 0, _, _ => 0
  | w + 1, m, a => m a % 256 + 256 * load_word w m (a + 1)

/-- Write `v` into the cell of `w` bytes at address `a`. -/
def store_word (w : Nat) (m : Nat → Nat) (a v : Nat) : Nat → Nat :=
  fun x => if a ≤ x ∧ x < a + w then v / 256 ^ (x - a) % 256 else m x

/-- The `memset(p, c, n)` of libc. -/
def memset (m : Nat → Nat) (p c n : Nat) : Nat → Nat :=
  fun x => if p ≤ x ∧ x < p + n then c % 256 else m x

/-- Bytes of the text at `a` up to the first zero byte, reading at most `n`
bytes. -/
def c_string (m : Nat → Nat) : Nat → Nat → List Nat
  | _, 0 => []
  | a, n + 1 => if m a % 256 = 0 then [] else m a % 256 :: c_string m (a + 1) n

/-! ## External functions -/

/-- Append an event to the trace. -/
def emit (σ : World) (e : Event) : World :=
  { σ with out := σ.out ++ [e] }

/-- The `malloc` of libc: the next answer of the allocator. -/
def malloc (σ : World) (_sz : Nat) : Nat × World :=
  match σ.heap with
  | [] => (0, σ)
  | p :: rest =>
    (p, { σ with heap := rest, live := if p = 0 then σ.live else p :: σ.live })

/-- The `free` of libc. The call is recorded; `free(NULL)` does nothing, a live
block is no longer live afterwards, and for any other pointer the behaviour is
not defined: the run ends. -/
def free (σ : World) (p : Nat) : Outcome Unit :=
  if p = 0 then Outcome.ret () (emit σ (Event.free p))
  else if p ∈ σ.live then
    Outcome.ret () { emit σ (Event.free p) with live := σ.live.erase p }
  else Outcome.stop (Fault.invalid_free p) (emit σ (Event.free p))

/-! ## The functions of `rust.c` -/

/-- Source: `logptr`. -/
def logptr (σ : World) (msg : String) (ptrval : Nat) : World :=
  emit σ (Event.logptr msg ptrval)

/-- Source: `xalloc`. -/
def xalloc (σ : World) (sz : Nat) : Outcome Nat :=
  match malloc σ sz with
  | (p, σ1) =>
    if p = 0 then Outcome.stop (Fault.exit 123) (emit σ1 (Event.alloc_failed sz))
    else Outcome.ret p σ1

/-- Source: `xcalloc`. -/
def xcalloc (σ : World) (sz : Nat) : Outcome Nat :=
  match xalloc σ sz with
  | Outcome.ret p σ1 => Outcome.ret p { σ1 with mem := memset σ1.mem p 0 sz }
  | Outcome.stop f σ1 => Outcome.stop f σ1
  | Outcome.timeout => Outcome.timeout

/-- Source: `rust_log_uint32_t`; the parameter is an `uint32_t`. -/
def rust_log_uint32_t (σ : World) (i : Nat) : World :=
  emit σ (Event.log_uint32 (i % 2 ^ 32))

/-- Source: `rust_log_str`; `printf` reads the text at `c` up to its
terminating zero byte (at most to the end of the address space). -/
def rust_log_str (T : Target) (σ : World) (c : Nat) : World :=
  emit σ (Event.log_str (c_string σ.mem c (T.modulus - c)))

/-- Source: `rust_new_rt`. -/
def rust_new_rt (T : Target) (σ : World) : Outcome Nat :=
  match xcalloc σ T.sizeof_rt with
  | Outcome.ret rt σ1 => Outcome.ret rt (logptr σ1 "new rt" rt)
  | Outcome.stop f σ1 => Outcome.stop f σ1
  | Outcome.timeout => Outcome.timeout

/-- Source: `rust_del_rt`. -/
def rust_del_rt (σ : World) (rt : Nat) : Outcome Unit :=
  free σ rt

/-- Source: `rust_init_stk_bytes`. -/
def rust_init_stk_bytes : Nat := 65536

/-- Source: `rust_new_stk`: the header is cleared with `memset`, then
`stk->size = sz` is stored into it; the payload is not touched. -/
def rust_new_stk (T : Target) (σ : World) : Outcome Nat :=
  let sz := T.sizeof_stk_seg + rust_init_stk_bytes
  match xalloc σ sz with
  | Outcome.ret stk σ1 =>
    let σ2 := logptr σ1 "new stk" stk
    let σ3 : World := { σ2 with mem := memset σ2.mem stk 0 T.sizeof_stk_seg }
    let σ4 : World :=
      { σ3 with mem := store_word T.word σ3.mem (stk + T.offsetof_size) sz }
    Outcome.ret stk σ4
  | Outcome.stop f σ1 => Outcome.stop f σ1
  | Outcome.timeout => Outcome.timeout

/-- Source: the loop of `rust_del_stk`, one segment per step: `nxt = stk->next`
is read from the header, then the segment is given to `free`. -/
def rust_del_stk_loop (T : Target) : Nat → World → Nat → Outcome Unit
  | 0, _, _ => Outcome.timeout
  | fuel + 1, σ, stk =>
    if stk = 0 then Outcome.stop (Fault.invalid_access 0) σ
    else
      let nxt := load_word T.word σ.mem (stk + T.offsetof_next)
      let σ1 := logptr σ "freeing stk segment" stk
      match free σ1 stk with
      | Outcome.ret _ σ2 =>
        if nxt ≠ 0 then rust_del_stk_loop T fuel σ2 nxt
        else Outcome.ret () σ2
      | Outcome.stop f σ2 => Outcome.stop f σ2
      | Outcome.timeout => Outcome.timeout

/-- Source: `rust_del_stk`. -/
def rust_del_stk (T : Target) (fuel : Nat) (σ : World) (stk : Nat) : Outcome Unit :=
  match rust_del_stk_loop T fuel σ stk with
  | Outcome.ret _ σ1 => Outcome.ret () (emit σ1 (Event.print "rt: freed stacks."))
  | Outcome.stop f σ1 => Outcome.stop f σ1
  | Outcome.timeout => Outcome.timeout

/-- The record `xcalloc` hands to `rust_new_proc`: every field zero.  (Which
state has the number zero is not in `rust.c`; `rust_new_proc` sets the state
before it returns.) -/
def rust_proc_zero : rust_proc_t :=
  { prog := { init_code := 0, main_code := 0, fini_code := 0 }, stk := 0,
    regs := { pc := 0, sp := 0 }, rt := 0, state := RUST_PROC_STATE_RUNNING,
    refcnt := 0 }

/-- Address of `stk->data[0]`: the payload follows the header. -/
def stk_data (T : Target) (stk : Nat) : Nat := stk + T.sizeof_stk_seg

/-- Source: `rust_new_proc`, the value of `proc->regs.sp` after
`proc->regs.sp &= ~0xf`: the address of the last word cell of the payload with
its low four bits cleared.  (`~0xf` is the `int` -16, as an `uintptr_t` it is
`modulus - 16`.) -/
def frame_base (T : Target) (stk : Nat) : Nat :=
  ((stk_data T stk + (rust_init_stk_bytes - T.word)) % T.modulus) &&& (T.modulus - 16)

/-- The statement `*sp-- = v`: a store of one word at `sp`, then the pointer
goes down by one word (on the machine, modulo the size of the address
space). -/
def push (T : Target) (m : Nat → Nat) (sp v : Nat) : (Nat → Nat) × Nat :=
  (store_word T.word m sp v, (sp + T.modulus - T.word) % T.modulus)

/-- Source: `rust_new_proc`, the loop `for (j = 0; j < rust_n_calee_saves; ++j)
*sp-- = 0`. -/
def rust_new_proc_saves (T : Target) : Nat → (Nat → Nat) → Nat → (Nat → Nat) × Nat
  | 0, m, sp => (m, sp)
  | j + 1, m, sp => rust_new_proc_saves T j (push T m sp 0).1 (push T m sp 0).2

/-- Source: `rust_new_proc`, the stores of the initial frame: the process
pointer, the fake output pointer, the fake return program counter and the
callee-saved slots, from `sp` downward. -/
def rust_new_proc_frame (T : Target) (m : Nat → Nat) (sp proc : Nat) : (Nat → Nat) × Nat :=
  match push T m sp proc with
  | (m1, sp1) =>
    match push T m1 sp1 0 with
    | (m2, sp2) =>
      match push T m2 sp2 0 with
      | (m3, sp3) => rust_new_proc_saves T T.rust_n_calee_saves m3 sp3

/-- Source: `rust_new_proc`.  Returns the address of the new process record
and the record. -/
def rust_new_proc (T : Target) (σ : World) (rt : Nat) (prog : rust_prog_t) :
    Outcome (Nat × rust_proc_t) :=
  match xcalloc σ T.sizeof_proc with
  | Outcome.ret proc σ1 =>
    let σ2 := logptr σ1 "new proc" proc
    match rust_new_stk T σ2 with
    | Outcome.ret stk σ3 =>
      let sp := frame_base T stk
      let regs_sp :=
        (sp + T.modulus - ((2 + T.rust_n_calee_saves) * T.word) % T.modulus) % T.modulus
      Outcome.ret
        (proc, { rust_proc_zero with
                   prog := prog, stk := stk,
                   regs := { pc := prog.main_code, sp := regs_sp },
                   rt := rt, state := RUST_PROC_STATE_RUNNING })
        { σ3 with mem := (rust_new_proc_frame T σ3.mem sp proc).1 }
    | Outcome.stop f σ3 => Outcome.stop f σ3
    | Outcome.timeout => Outcome.timeout
  | Outcome.stop f σ1 => Outcome.stop f σ1
  | Outcome.timeout => Outcome.timeout

/-- Source: `rust_del_proc`: the `assert`, `rust_del_stk(proc->stk)` and then
`free(proc->stk)`.  A failing `assert` ends the host process. -/
def rust_del_proc (T : Target) (fuel : Nat) (σ : World) (proc : rust_proc_t) : Outcome Unit :=
  if proc.refcnt ≠ 0 then Outcome.stop Fault.assert_failed σ
  else
    match rust_del_stk T fuel σ proc.stk with
    | Outcome.ret _ σ1 => free σ1 proc.stk
    | Outcome.stop f σ1 => Outcome.stop f σ1
    | Outcome.timeout => Outcome.timeout

/-- The trampoline `c_to_proc_glue`: given the process pointer it runs the
process, which may change the process record and raw memory, until the process
yields.  `τ` is whatever else its behaviour depends on. -/
abbrev Glue (τ : Type) : Type :=
  τ → Nat → rust_proc_t → (Nat → Nat) → τ × rust_proc_t × (Nat → Nat)

/-- Source: `rust_start`, the request block the loop reads when the process is
in state `RUST_PROC_STATE_CALLING_C`: `sp = (uintptr_t*) proc->regs.sp;
sp += rust_n_calee_saves; sp++;` and then the call code `*sp` and the argument
`sp[1]`. -/
def rust_start_request (T : Target) (m : Nat → Nat) (proc : rust_proc_t) : Nat × Nat :=
  let sp := proc.regs.sp
  let sp := sp + T.rust_n_calee_saves * T.word
  let sp := sp + T.word
  (load_word T.word m sp, load_word T.word m (sp + T.word))

/-- Source: `rust_start`, the block run when the process is in state
`RUST_PROC_STATE_CALLING_C`: the `switch` on the call code. -/
def rust_start_call_c (T : Target) (σ : World) (proc : rust_proc_t) : World :=
  match rust_start_request T σ.mem proc with
  | (code, arg) =>
    if code = 0 then rust_log_uint32_t σ arg
    else if code = 1 then rust_log_str T σ arg
    else σ

/-- Source: `rust_start`, the body of the `do ... while` loop. -/
def rust_start_body {τ : Type} (T : Target) (glue : Glue τ) (proc_ptr : Nat)
    (t : τ) (proc : rust_proc_t) (σ : World) : τ × rust_proc_t × World :=
  let proc1 := { proc with state := RUST_PROC_STATE_RUNNING }
  let σ1 := emit σ (Event.glue proc_ptr proc1.state)
  match glue t proc_ptr proc1 σ1.mem with
  | (t2, proc2, m2) =>
    let σ2 : World := { σ1 with mem := m2 }
    if proc2.state = RUST_PROC_STATE_CALLING_C then (t2, proc2, rust_start_call_c T σ2 proc2)
    else (t2, proc2, σ2)

/-- Source: `rust_start`, the loop `do ... while (proc->state !=
RUST_PROC_STATE_EXITING)`. -/
def rust_start_loop {τ : Type} (T : Target) (glue : Glue τ) (proc_ptr : Nat) :
    Nat → τ → rust_proc_t → World → Outcome (τ × rust_proc_t)
  | 0, _, _, _ => Outcome.timeout
  | fuel + 1, t, proc, σ =>
    match rust_start_body T glue proc_ptr t proc σ with
    | (t2, proc2, σ2) =>
      if proc2.state ≠ RUST_PROC_STATE_EXITING then rust_start_loop T glue proc_ptr fuel t2 proc2 σ2
      else Outcome.ret (t2, proc2) σ2

/-- Source: `rust_start`.  `glue_ptr` is the address of the trampoline (it is
only printed), `fuel` bounds the number of loop iterations. -/
def rust_start {τ : Type} (T : Target) (fuel : Nat) (σ : World) (prog : rust_prog_t)
    (glue : Glue τ) (glue_ptr : Nat) (t : τ) : Outcome Nat :=
  let σ := emit σ (Event.print "rt: control is in rust runtime library")
  let σ := logptr σ "prog->init_code" prog.init_code
  let σ := logptr σ "prog->main_code" prog.main_code
  let σ := logptr σ "prog->fini_code" prog.fini_code
  match rust_new_rt T σ with
  | Outcome.ret rt σ =>
    match rust_new_proc T σ rt prog with
    | Outcome.ret (proc_ptr, proc) σ =>
      let _rt_rec : rust_rt_t := { proc := proc_ptr }
      let σ := logptr σ "root proc is " proc_ptr
      let σ := logptr σ "proc->regs.pc " proc.regs.pc
      let σ := logptr σ "proc->regs.sp " proc.regs.sp
      let σ := logptr σ "c_to_proc_glue " glue_ptr
      match rust_start_loop T glue proc_ptr fuel t proc σ with
      | Outcome.ret (_, proc) σ =>
        let σ := emit σ (Event.print "rt: proc assumed exiting state.")
        match rust_del_proc T fuel σ proc with
        | Outcome.ret _ σ =>
          let σ := emit σ (Event.print "rt: freed proc.")
          match rust_del_rt σ rt with
          | Outcome.ret _ σ =>
            let σ := emit σ (Event.print "rt: freed runtime.")
            Outcome.ret 37 σ
          | Outcome.stop f σ => Outcome.stop f σ
          | Outcome.timeout => Outcome.timeout
        | Outcome.stop f σ => Outcome.stop f σ
        | Outcome.timeout => Outcome.timeout
      | Outcome.stop f σ => Outcome.stop f σ
      | Outcome.timeout => Outcome.timeout
    | Outcome.stop f σ => Outcome.stop f σ
    | Outcome.timeout => Outcome.timeout
  | Outcome.stop f σ => Outcome.stop f σ
  | Outcome.timeout => Outcome.timeout

/-! ## Worlds and traces the statements speak about -/

/-- Result of an outcome, when it is a normal return. -/
def Outcome.value {α : Type} : Outcome α → Option α
  | Outcome.ret a _ => some a
  | Outcome.stop _ _ => none
  | Outcome.timeout => none

/-- World of an outcome, when it is a normal return. -/
def Outcome.world {α : Type} : Outcome α → Option World
  | Outcome.ret _ σ => some σ
  | Outcome.stop _ _ => none
  | Outcome.timeout => none

/-- The fault of an outcome, when the host process was terminated. -/
def Outcome.fault {α : Type} : Outcome α → Option Fault
  | Outcome.ret _ _ => none
  | Outcome.stop f _ => some f
  | Outcome.timeout => none

/-- The world in which an outcome ends, by return or by termination. -/
def Outcome.final {α : Type} : Outcome α → Option World
  | Outcome.ret _ σ => some σ
  | Outcome.stop _ σ => some σ
  | Outcome.timeout => none

/-- Raw memory after `rust_new_stk` for the block `stk`: the header cleared and
the size stored in it. -/
def rust_new_stk_mem (T : Target) (m : Nat → Nat) (stk : Nat) : Nat → Nat :=
  store_word T.word (memset m stk 0 T.sizeof_stk_seg) (stk + T.offsetof_size)
    (T.sizeof_stk_seg + rust_init_stk_bytes)

/-- The world `rust_new_stk` leaves when the allocator answers `stk`. -/
def rust_new_stk_world (T : Target) (σ : World) (stk : Nat) (rest : List Nat) : World :=
  { mem := rust_new_stk_mem T σ.mem stk,
    live := stk :: σ.live,
    heap := rest,
    out := σ.out ++ [Event.logptr "new stk" stk] }

/-- The world in which `rust_new_proc` asks for the stack segment, after the
allocator answered `p` for the process record. -/
def rust_new_proc_world (T : Target) (σ : World) (p : Nat) (rest : List Nat) : World :=
  { mem := memset σ.mem p 0 T.sizeof_proc,
    live := p :: σ.live,
    heap := rest,
    out := σ.out ++ [Event.logptr "new proc" p] }

/-- The process record `rust_new_proc` returns for the stack segment `stk`. -/
def rust_new_proc_rec (T : Target) (rt : Nat) (prog : rust_prog_t) (stk : Nat) : rust_proc_t :=
  { prog := prog, stk := stk,
    regs :=
      { pc := prog.main_code,
        sp := (frame_base T stk + T.modulus
          - ((2 + T.rust_n_calee_saves) * T.word) % T.modulus) % T.modulus },
    rt := rt, state := RUST_PROC_STATE_RUNNING, refcnt := 0 }

/-- Raw memory before the stores of the initial frame: the process record
cleared by `xcalloc`, the segment header written by `rust_new_stk`. -/
def rust_new_proc_mem0 (T : Target) (m : Nat → Nat) (p stk : Nat) : Nat → Nat :=
  rust_new_stk_mem T (memset m p 0 T.sizeof_proc) stk

/-- Raw memory after the stores of the initial frame, for a frame that does not
reach below address 0: the process pointer at the frame base and `N + 2`
cleared cells below it. -/
def rust_new_proc_mem (T : Target) (m : Nat → Nat) (p stk : Nat) : Nat → Nat :=
  fun x =>
    if frame_base T stk - (T.rust_n_calee_saves + 2) * T.word ≤ x ∧ x < frame_base T stk then 0
    else store_word T.word (rust_new_proc_mem0 T m p stk) (frame_base T stk) p x

/-- Following the `next` links in the headers from `a` visits the segments `l`,
in this order, and then reaches `NULL`. -/
def stk_chain (T : Target) (m : Nat → Nat) : Nat → List Nat → Bool
  | a, [] => a == 0
  | a, b :: l =>
    a == b && a != 0 && stk_chain T m (load_word T.word m (a + T.offsetof_next)) l

/-- The events of releasing the segments `l`. -/
def del_stk_events (l : List Nat) : List Event :=
  l.flatMap (fun s => [Event.logptr "freeing stk segment" s, Event.free s])

/-- The bytes at `a` are the text `text` (no zero byte in it) followed by a
zero byte. -/
def holds_text (m : Nat → Nat) : Nat → List Nat → Bool
  | a, [] => m a % 256 == 0
  | a, c :: l => c != 0 && m a % 256 == c && holds_text m (a + 1) l

/-- What the trampoline leaves at its `(i+1)`-th return in the loop of
`rust_start` (`i` counts from 0): each invocation starts from what the previous
return left, with the state set to `RUNNING`. -/
def glue_returns {τ : Type} (glue : Glue τ) (ptr : Nat) :
    Nat → τ → rust_proc_t → (Nat → Nat) → τ × rust_proc_t × (Nat → Nat)
  | 0, t, p, m => glue t ptr { p with state := RUST_PROC_STATE_RUNNING } m
  | i + 1, t, p, m =>
    glue_returns glue ptr i
      (glue t ptr { p with state := RUST_PROC_STATE_RUNNING } m).1
      (glue t ptr { p with state := RUST_PROC_STATE_RUNNING } m).2.1
      (glue t ptr { p with state := RUST_PROC_STATE_RUNNING } m).2.2

/-- The entries one foreign-call dispatch appends for the request block of
`proc` in the memory `m`: call code in cell `N + 1`, argument in cell `N + 2`. -/
def call_c_events (T : Target) (m : Nat → Nat) (proc : rust_proc_t) : List Event :=
  if load_word T.word m (proc.regs.sp + (T.rust_n_calee_saves + 1) * T.word) = 0 then
    [Event.log_uint32
      (load_word T.word m (proc.regs.sp + (T.rust_n_calee_saves + 2) * T.word) % 2 ^ 32)]
  else if load_word T.word m (proc.regs.sp + (T.rust_n_calee_saves + 1) * T.word) = 1 then
    [Event.log_str (c_string m
      (load_word T.word m (proc.regs.sp + (T.rust_n_calee_saves + 2) * T.word))
      (T.modulus
        - load_word T.word m (proc.regs.sp + (T.rust_n_calee_saves + 2) * T.word)))]
  else []

/-- The events of the `(i+1)`-th round of the loop: one invocation of the
trampoline, in state `RUNNING`, and then one dispatch if and only if the
trampoline returned in state `CALLING_C`. -/
def round_events {τ : Type} (T : Target) (glue : Glue τ) (ptr : Nat) (t : τ)
    (p : rust_proc_t) (m : Nat → Nat) (i : Nat) : List Event :=
  Event.glue ptr RUST_PROC_STATE_RUNNING ::
    (if (glue_returns glue ptr i t p m).2.1.state = RUST_PROC_STATE_CALLING_C then
      call_c_events T (glue_returns glue ptr i t p m).2.2 (glue_returns glue ptr i t p m).2.1
    else [])

/-- The events of the first `n` rounds of the loop, in order. -/
def loop_events {τ : Type} (T : Target) (glue : Glue τ) (ptr : Nat) (t : τ)
    (p : rust_proc_t) (m : Nat → Nat) (n : Nat) : List Event :=
  (List.range n).flatMap (round_events T glue ptr t p m)

/-- An event is an invocation of the trampoline. -/
def Event.is_glue : Event → Bool
  | Event.glue _ _ => true
  | _ => false

/-- The states recorded by the invocations of the trampoline in a trace. -/
def glue_states : List Event → List rust_proc_state_t
  | [] => []
  | Event.glue _ s :: l => s :: glue_states l
  | _ :: l => glue_states l

/-- The events of `rust_start` up to the loop. -/
def start_events (T : Target) (prog : rust_prog_t) (glue_ptr rt p stk : Nat) : List Event :=
  [Event.print "rt: control is in rust runtime library",
   Event.logptr "prog->init_code" prog.init_code,
   Event.logptr "prog->main_code" prog.main_code,
   Event.logptr "prog->fini_code" prog.fini_code,
   Event.logptr "new rt" rt,
   Event.logptr "new proc" p,
   Event.logptr "new stk" stk,
   Event.logptr "root proc is " p,
   Event.logptr "proc->regs.pc " prog.main_code,
   Event.logptr "proc->regs.sp " (frame_base T stk - (T.rust_n_calee_saves + 2) * T.word),
   Event.logptr "c_to_proc_glue " glue_ptr]

/-! ## Concrete inputs -/

/-- A 32-bit target with four callee-saved registers; in the segment header
`next` is the second word and `size` the third. -/
def target32 : Target :=
  { word := 4, rust_n_calee_saves := 4, sizeof_stk_seg := 16, sizeof_proc := 28,
    sizeof_rt := 4, offsetof_size := 8, offsetof_next := 4 }

/-- A 64-bit target with four callee-saved registers. -/
def target64 : Target :=
  { word := 8, rust_n_calee_saves := 4, sizeof_stk_seg := 32, sizeof_proc := 56,
    sizeof_rt := 8, offsetof_size := 16, offsetof_next := 8 }

/-- A program descriptor. -/
def prog0 : rust_prog_t := { init_code := 0x1000, main_code := 0x1100, fini_code := 0x1200 }

/-- A world whose memory holds the byte `0xAA` everywhere and whose allocator
answers `0x10000`, `0x20000`, `0x40000`. -/
def world0 : World :=
  { mem := fun _ => 0xAA,
    live := [],
    heap := [0x10000, 0x20000, 0x40000],
    out := [] }

/-- Raw memory with a request block for a stack pointer `0x1000` on the 32-bit
target with `N = 4`: cell 5 (at `0x1014`) holds 0, cell 6 (at `0x1018`) holds
`0x2A`, cell 7 (at `0x101c`) holds 7. -/
def mem_request : Nat → Nat :=
  fun x => if x = 0x1018 then 0x2A else if x = 0x101c then 7 else 0

/-- A suspended process with stack pointer `0x1000`. -/
def proc_request : rust_proc_t :=
  { prog := prog0, stk := 0x20000, regs := { pc := 0x1100, sp := 0x1000 }, rt := 0x10000,
    state := RUST_PROC_STATE_CALLING_C, refcnt := 0 }

/-- A trampoline that leaves the process in state `CALLING_C` with the stack
pointer `0x1000` and the request block of `mem_request`. -/
def glue_request : Glue Unit :=
  fun t _ _ _ => (t, proc_request, mem_request)

/-- The world `world0` with the raw memory `mem_request`. -/
def world_request : World :=
  { mem := mem_request, live := [], heap := world0.heap, out := [] }

/-- Raw memory with a request block for the stack pointer `0x1000` (32-bit
target, `N = 4`): call code 1 in cell 5, the pointer `0x2000` in cell 6, and
the bytes of "hello" followed by a zero byte at `0x2000`. -/
def mem_hello : Nat → Nat :=
  fun x =>
    if x = 0x1014 then 1 else if x = 0x1019 then 0x20
    else if x = 0x2000 then 104 else if x = 0x2001 then 101 else if x = 0x2002 then 108
    else if x = 0x2003 then 108 else if x = 0x2004 then 111 else 0

/-- The world `world0` with the raw memory `mem_hello`. -/
def world_hello : World :=
  { mem := mem_hello, live := [], heap := world0.heap, out := [] }

/-- A process with two references. -/
def proc_referenced : rust_proc_t := { proc_request with refcnt := 2 }

/-- A world with a chain of two live segments, `0x20000` and then `0x50000`
(the `next` field of the first, at `0x20004`, holds `0x50000`), and a live
process record at `0x10000`. -/
def world_chain : World :=
  { mem := fun a => if a = 0x20006 then 5 else 0,
    live := [0x50000, 0x20000, 0x10000],
    heap := [],
    out := [] }

/-- The trampoline of a process that sets its state to `EXITING` at once. -/
def exit_glue : Glue Unit :=
  fun t _ p m => (t, { p with state := RUST_PROC_STATE_EXITING }, m)

/-- A trampoline whose process asks for a foreign call (the request block of
`mem_request`) at its first return and exits at its second; the hidden state
counts the invocations. -/
def glue_call_then_exit : Glue Nat :=
  fun k _ p m =>
    if k = 0 then (1, proc_request, mem_request)
    else (k + 1, { p with state := RUST_PROC_STATE_EXITING }, m)

/-! ## Raw memory: cells read back what was stored -/

theorem modulus_eq (T : Target) : T.modulus = 256 ^ T.word := by
  unfold Target.modulus
  rw [pow_mul]
  norm_num

theorem load_word_congr (w : Nat) (m1 m2 : Nat → Nat) (a : Nat)
    (h : ∀ i, i < w → m1 (a + i) = m2 (a + i)) : load_word w m1 a = load_word w m2 a := by
  induction w generalizing a with
  | zero => rfl
  | succ k ih =>
    have h0 : m1 a = m2 a := by simpa using h 0 (Nat.succ_pos k)
    have hk : load_word k m1 (a + 1) = load_word k m2 (a + 1) := by
      apply ih
      intro i hi
      have := h (i + 1) (Nat.succ_lt_succ hi)
      rwa [show a + 1 + i = a + (i + 1) by omega]
    simp only [load_word, h0, hk]

theorem load_word_of_bytes (w : Nat) (m : Nat → Nat) (a v : Nat)
    (h : ∀ i, i < w → m (a + i) = v / 256 ^ i % 256) : load_word w m a = v % 256 ^ w := by
  induction w generalizing a v with
  | zero => simp [load_word, Nat.mod_one]
  | succ k ih =>
    have h0 : m a = v % 256 := by simpa using h 0 (Nat.succ_pos k)
    have hk : load_word k m (a + 1) = v / 256 % 256 ^ k := by
      apply ih
      intro i hi
      have := h (i + 1) (Nat.succ_lt_succ hi)
      rw [show a + 1 + i = a + (i + 1) by omega, this, pow_succ, Nat.mul_comm,
        Nat.div_div_eq_div_mul]
    simp only [load_word, h0, hk, Nat.mod_mod]
    rw [pow_succ, Nat.mul_comm (256 ^ k) 256, Nat.mod_mul]

theorem load_word_zero (w : Nat) (m : Nat → Nat) (a : Nat)
    (h : ∀ i, i < w → m (a + i) = 0) : load_word w m a = 0 := by
  have := load_word_of_bytes w m a 0 (by intro i hi; simp [h i hi])
  simpa using this

theorem load_store_same (w : Nat) (m : Nat → Nat) (a v : Nat) :
    load_word w (store_word w m a v) a = v % 256 ^ w := by
  apply load_word_of_bytes
  intro i hi
  simp [store_word, hi]

theorem load_store_disjoint (w w' : Nat) (m : Nat → Nat) (a b v : Nat)
    (h : b + w ≤ a ∨ a + w' ≤ b) :
    load_word w (store_word w' m a v) b = load_word w m b := by
  apply load_word_congr
  intro i hi
  have : ¬ (a ≤ b + i ∧ b + i < a + w') := by omega
  simp [store_word, this]

theorem land_clear_low4 (x n : Nat) (hn : 4 ≤ n) (hx : x < 2 ^ n) :
    x &&& (2 ^ n - 16) = x - x % 16 := by
  have h16 : 2 ^ n - 16 = 2 ^ 4 * (2 ^ (n - 4) - 1) := by
    have : 2 ^ n = 2 ^ 4 * 2 ^ (n - 4) := by rw [← pow_add]; congr 1; omega
    rw [this, Nat.mul_sub, Nat.mul_one]; norm_num
  have hq : x - x % 16 = 2 ^ 4 * (x >>> 4) := by
    rw [Nat.shiftRight_eq_div_pow]
    have := Nat.div_add_mod x 16
    norm_num; omega
  rw [h16, hq]
  apply Nat.eq_of_testBit_eq
  intro i
  rw [Nat.testBit_and, Nat.testBit_mul_pow_two, Nat.testBit_mul_pow_two,
    Nat.testBit_two_pow_sub_one, Nat.testBit_shiftRight]
  by_cases hi : 4 ≤ i
  · have e : 4 + (i - 4) = i := by omega
    rw [e]
    by_cases h2 : i - 4 < n - 4
    · simp [hi, h2]
    · have hx0 : x.testBit i = false := by
        apply Nat.testBit_lt_two_pow
        calc x < 2 ^ n := hx
          _ ≤ 2 ^ i := Nat.pow_le_pow_right (by norm_num) (by omega)
      simp [hx0]
  · simp [hi]

/-- The frame base is the address of the last word cell of the payload minus
its remainder modulo 16, when the segment lies inside the address space. -/
theorem frame_base_eq (T : Target) (stk : Nat) (hw : 0 < T.word)
    (hfit : stk_data T stk + rust_init_stk_bytes ≤ T.modulus) :
    frame_base T stk = stk_data T stk + (rust_init_stk_bytes - T.word)
      - (stk_data T stk + (rust_init_stk_bytes - T.word)) % 16 := by
  have hlt : stk_data T stk + (rust_init_stk_bytes - T.word) < T.modulus := by
    unfold rust_init_stk_bytes at *
    omega
  unfold frame_base
  rw [Nat.mod_eq_of_lt hlt]
  exact land_clear_low4 _ _ (by omega) hlt

theorem frame_base_lt (T : Target) (stk : Nat) : frame_base T stk < T.modulus := by
  unfold frame_base
  exact lt_of_le_of_lt Nat.and_le_left (Nat.mod_lt _ (Nat.pos_pow_of_pos _ (by norm_num)))

/-! ## The stores of the initial frame -/

theorem word_le_modulus (T : Target) : T.word ≤ T.modulus := by
  unfold Target.modulus
  have h1 : T.word < 2 ^ T.word := Nat.lt_two_pow T.word
  have h2 : 2 ^ T.word ≤ 2 ^ (8 * T.word) := Nat.pow_le_pow_right (by norm_num) (by omega)
  omega

/-- The pointer after `*sp-- = v`, when it does not go below address 0. -/
theorem push_sp (T : Target) (m : Nat → Nat) (sp v : Nat) (h1 : T.word ≤ sp)
    (h2 : sp < T.modulus) : (push T m sp v).2 = sp - T.word := by
  unfold push
  have : sp + T.modulus - T.word = sp - T.word + T.modulus := by omega
  simp only [this, Nat.add_mod_right]
  exact Nat.mod_eq_of_lt (by omega)

/-- Memory after the callee-save loop, for a loop that does not reach below
address 0: `j` word cells below `sp + w` are cleared. -/
theorem saves_mem (T : Target) (hw : 0 < T.word) (j : Nat) (m : Nat → Nat) (sp : Nat)
    (hsp : sp < T.modulus) (h : j = 0 ∨ j * T.word ≤ sp + T.word) :
    (rust_new_proc_saves T j m sp).1 =
      fun x => if sp + T.word - j * T.word ≤ x ∧ x < sp + T.word then 0 else m x := by
  induction j generalizing m sp with
  | zero =>
    funext x
    have : ¬ (sp + T.word - 0 * T.word ≤ x ∧ x < sp + T.word) := by simp
    rw [if_neg this]
    rfl
  | succ k ih =>
    have e : (k + 1) * T.word = k * T.word + T.word := by ring
    rw [e] at h ⊢
    have hk : k * T.word ≤ sp := by omega
    unfold rust_new_proc_saves
    rcases Nat.eq_zero_or_pos k with h0 | h0
    · subst h0
      funext x
      simp only [rust_new_proc_saves, push, store_word, Nat.zero_div, Nat.zero_mod,
        Nat.zero_mul, Nat.zero_add]
      by_cases c : sp ≤ x ∧ x < sp + T.word
      · rw [if_pos c, if_pos (by omega)]
      · rw [if_neg c, if_neg (by omega)]
    · have hkw : T.word ≤ k * T.word := Nat.le_mul_of_pos_left _ h0
      have hp : (push T m sp 0).2 = sp - T.word := push_sp T m sp 0 (by omega) hsp
      rw [hp, ih _ _ (by omega) (Or.inr (by omega))]
      funext x
      simp only [push, store_word, Nat.zero_div, Nat.zero_mod]
      generalize k * T.word = K at hk hkw
      by_cases c1 : sp - T.word + T.word - K ≤ x ∧ x < sp - T.word + T.word
      · rw [if_pos c1, if_pos (by omega)]
      · by_cases c3 : sp ≤ x ∧ x < sp + T.word
        · rw [if_neg c1, if_pos c3, if_pos (by omega)]
        · rw [if_neg c1, if_neg c3, if_neg (by omega)]

/-- The three stores above the callee-saved slots are the loop run twice more,
after the store of the process pointer. -/
theorem rust_new_proc_frame_eq (T : Target) (m : Nat → Nat) (sp proc : Nat) :
    rust_new_proc_frame T m sp proc =
      rust_new_proc_saves T (T.rust_n_calee_saves + 2) (push T m sp proc).1
        (push T m sp proc).2 := rfl

/-- Memory after the stores of the initial frame, for a frame that does not
reach below address 0: the process pointer at `sp` and `N + 2` cleared cells
below it. -/
theorem rust_new_proc_frame_mem (T : Target) (hw : 0 < T.word) (m : Nat → Nat) (sp proc : Nat)
    (hsp : sp < T.modulus) (h : (T.rust_n_calee_saves + 2) * T.word ≤ sp) :
    (rust_new_proc_frame T m sp proc).1 =
      fun x => if sp - (T.rust_n_calee_saves + 2) * T.word ≤ x ∧ x < sp then 0
        else store_word T.word m sp proc x := by
  have hN : T.word ≤ (T.rust_n_calee_saves + 2) * T.word :=
    Nat.le_mul_of_pos_left _ (by omega)
  have hp : (push T m sp proc).2 = sp - T.word := push_sp T m sp proc (by omega) hsp
  rw [rust_new_proc_frame_eq, hp, saves_mem T hw _ _ _ (by omega) (Or.inr (by omega))]
  have e : sp - T.word + T.word = sp := by omega
  rw [e]
  rfl

/-! ## Allocation -/

theorem xalloc_eq (σ : World) (sz p : Nat) (rest : List Nat) (h : σ.heap = p :: rest)
    (hp : p ≠ 0) :
    xalloc σ sz = Outcome.ret p { σ with heap := rest, live := p :: σ.live } := by
  simp [xalloc, malloc, h, hp]

theorem xalloc_ret (σ σ1 : World) (sz p : Nat) (h : xalloc σ sz = Outcome.ret p σ1) :
    p ≠ 0 ∧ ∃ rest, σ.heap = p :: rest := by
  unfold xalloc malloc at h
  cases hh : σ.heap with
  | nil => simp [hh] at h
  | cons q rest =>
    simp only [hh] at h
    by_cases hq : q = 0
    · simp [hq] at h
    · simp only [hq, if_false, Outcome.ret.injEq] at h
      exact ⟨h.1 ▸ hq, rest, by rw [h.1]⟩

theorem xcalloc_ret (σ σ1 : World) (sz p : Nat) (h : xcalloc σ sz = Outcome.ret p σ1) :
    p ≠ 0 ∧ ∃ rest, σ.heap = p :: rest := by
  unfold xcalloc at h
  cases hx : xalloc σ sz with
  | ret q σ2 =>
    simp only [hx, Outcome.ret.injEq] at h
    have := xalloc_ret σ σ2 sz q hx
    rw [h.1] at this
    exact this
  | stop f σ2 => simp [hx] at h
  | timeout => simp [hx] at h

theorem xcalloc_eq (σ : World) (sz p : Nat) (rest : List Nat) (h : σ.heap = p :: rest)
    (hp : p ≠ 0) :
    xcalloc σ sz = Outcome.ret p
      { σ with heap := rest, live := p :: σ.live, mem := memset σ.mem p 0 sz } := by
  simp [xcalloc, xalloc_eq σ sz p rest h hp]

theorem rust_new_stk_eq (T : Target) (σ : World) (stk : Nat) (rest : List Nat)
    (h : σ.heap = stk :: rest) (hs : stk ≠ 0) :
    rust_new_stk T σ = Outcome.ret stk (rust_new_stk_world T σ stk rest) := by
  simp [rust_new_stk, xalloc_eq σ _ stk rest h hs, rust_new_stk_world, rust_new_stk_mem,
    logptr, emit]

theorem rust_new_stk_ret (T : Target) (σ σ1 : World) (stk : Nat)
    (h : rust_new_stk T σ = Outcome.ret stk σ1) :
    stk ≠ 0 ∧ ∃ rest, σ.heap = stk :: rest := by
  unfold rust_new_stk at h
  cases hx : xalloc σ (T.sizeof_stk_seg + rust_init_stk_bytes) with
  | ret q σ2 =>
    simp only [hx, Outcome.ret.injEq] at h
    have := xalloc_ret σ σ2 _ q hx
    rw [h.1] at this
    exact this
  | stop f σ2 => simp [hx] at h
  | timeout => simp [hx] at h

/-! ## Process creation -/

theorem rust_new_proc_eq (T : Target) (σ : World) (rt : Nat) (prog : rust_prog_t)
    (p stk : Nat) (rest : List Nat) (h : σ.heap = p :: stk :: rest) (hp : p ≠ 0)
    (hs : stk ≠ 0) :
    rust_new_proc T σ rt prog =
      Outcome.ret (p, rust_new_proc_rec T rt prog stk)
        { rust_new_stk_world T (rust_new_proc_world T σ p (stk :: rest)) stk rest with
          mem := (rust_new_proc_frame T (rust_new_proc_mem0 T σ.mem p stk)
            (frame_base T stk) p).1 } := by
  have h1 : xcalloc σ T.sizeof_proc = Outcome.ret p _ := xcalloc_eq σ _ p _ h hp
  have h2 : rust_new_stk T (rust_new_proc_world T σ p (stk :: rest))
      = Outcome.ret stk _ := rust_new_stk_eq T _ stk rest rfl hs
  unfold rust_new_proc
  rw [h1]
  simp only [logptr, emit]
  change (match rust_new_stk T (rust_new_proc_world T σ p (stk :: rest)) with
    | Outcome.ret stk σ3 => _
    | Outcome.stop f σ3 => _
    | Outcome.timeout => _) = _
  rw [h2]
  rfl

theorem rust_new_proc_ret (T : Target) (σ σ' : World) (rt : Nat) (prog : rust_prog_t)
    (p : Nat) (proc : rust_proc_t) (h : rust_new_proc T σ rt prog = Outcome.ret (p, proc) σ') :
    ∃ stk rest, σ.heap = p :: stk :: rest ∧ p ≠ 0 ∧ stk ≠ 0 := by
  unfold rust_new_proc at h
  cases h1 : xcalloc σ T.sizeof_proc with
  | stop f σ1 => simp [h1] at h
  | timeout => simp [h1] at h
  | ret q σ1 =>
    obtain ⟨hq, rest1, hrest1⟩ := xcalloc_ret σ σ1 _ q h1
    have hσ1 := xcalloc_eq σ T.sizeof_proc q rest1 hrest1 hq
    rw [h1] at hσ1
    simp only [Outcome.ret.injEq, true_and] at hσ1
    simp only [h1] at h
    cases h2 : rust_new_stk T (logptr σ1 "new proc" q) with
    | stop f σ2 => simp [h2] at h
    | timeout => simp [h2] at h
    | ret stk σ2 =>
      obtain ⟨hs, rest2, hrest2⟩ := rust_new_stk_ret T _ σ2 stk h2
      simp only [h2, Outcome.ret.injEq, Prod.mk.injEq] at h
      have hpq : q = p := h.1.1
      subst hpq
      refine ⟨stk, rest2, ?_, hq, hs⟩
      rw [hrest1]
      rw [hσ1] at hrest2
      simp only [logptr, emit] at hrest2
      rw [hrest2]

/-- Everything a normal return of `rust_new_proc` says. -/
theorem rust_new_proc_spec (T : Target) (σ σ' : World) (rt : Nat) (prog : rust_prog_t)
    (p : Nat) (proc : rust_proc_t)
    (h : rust_new_proc T σ rt prog = Outcome.ret (p, proc) σ') :
    ∃ stk rest, σ.heap = p :: stk :: rest ∧ p ≠ 0 ∧ stk ≠ 0 ∧
      proc = rust_new_proc_rec T rt prog stk ∧
      σ' = { rust_new_stk_world T (rust_new_proc_world T σ p (stk :: rest)) stk rest with
             mem := (rust_new_proc_frame T (rust_new_proc_mem0 T σ.mem p stk)
               (frame_base T stk) p).1 } := by
  obtain ⟨stk, rest, hheap, hp, hs⟩ := rust_new_proc_ret T σ σ' rt prog p proc h
  rw [rust_new_proc_eq T σ rt prog p stk rest hheap hp hs] at h
  simp only [Outcome.ret.injEq, Prod.mk.injEq, true_and] at h
  exact ⟨stk, rest, hheap, hp, hs, h.1.symm, h.2.symm⟩

theorem rust_new_proc_mem_eq (T : Target) (hw : 0 < T.word) (m : Nat → Nat) (p stk : Nat)
    (h : (T.rust_n_calee_saves + 2) * T.word ≤ frame_base T stk) :
    (rust_new_proc_frame T (rust_new_proc_mem0 T m p stk) (frame_base T stk) p).1
      = rust_new_proc_mem T m p stk :=
  rust_new_proc_frame_mem T hw _ _ _ (frame_base_lt T stk) h

/-- Where the frame base lies when the segment is inside the address space. -/
theorem frame_base_bounds (T : Target) (stk : Nat) (hw : 0 < T.word)
    (hfit : stk_data T stk + rust_init_stk_bytes ≤ T.modulus) :
    frame_base T stk % 16 = 0 ∧
      stk_data T stk + (rust_init_stk_bytes - T.word) ≤ frame_base T stk + 15 ∧
      frame_base T stk ≤ stk_data T stk + (rust_init_stk_bytes - T.word) := by
  rw [frame_base_eq T stk hw hfit]
  generalize stk_data T stk + (rust_init_stk_bytes - T.word) = x
  have := Nat.mod_lt x (show 0 < 16 by norm_num)
  have := Nat.div_add_mod x 16
  omega

theorem modulus_dvd (T : Target) (hw : T.word = 4 ∨ T.word = 8) :
    T.modulus % 16 = 0 ∧ T.modulus % T.word = 0 := by
  unfold Target.modulus
  rcases hw with h | h <;> rw [h] <;> norm_num

/-- C10. For every segment inside the address space and word size 4 or 8, the
frame base (address of the last word cell of the payload, low four bits
cleared) is a multiple of 16 and the word at it lies inside the payload; and
when `(N + 3) * w + 15 ≤ 65536`, each of the `N + 3` cells of the initial frame
(from the frame base downward) lies inside the payload
`stk.data[0 .. 65536)`, `rust_new_proc` returns, its stores are the process
pointer at the frame base and zeros in the `N + 2` cells below it, and outside
of the payload raw memory is what it was before these stores (the process
record cleared, the segment header written by `rust_new_stk`): no store of the
frame touches the header or memory outside of the segment. -/
theorem rust_new_proc_frame_in_payload (T : Target) (stk : Nat)
    (hw : T.word = 4 ∨ T.word = 8)
    (hfit : stk_data T stk + rust_init_stk_bytes ≤ T.modulus) :
    (frame_base T stk % 16 = 0 ∧ stk_data T stk ≤ frame_base T stk ∧
      frame_base T stk + T.word ≤ stk_data T stk + rust_init_stk_bytes) ∧
    ((T.rust_n_calee_saves + 3) * T.word + 15 ≤ rust_init_stk_bytes →
      (∀ k, k < T.rust_n_calee_saves + 3 →
        k * T.word ≤ frame_base T stk ∧
        stk_data T stk ≤ frame_base T stk - k * T.word ∧
        frame_base T stk - k * T.word + T.word ≤ stk_data T stk + rust_init_stk_bytes) ∧
      (∀ σ rt prog p rest, σ.heap = p :: stk :: rest → p ≠ 0 → stk ≠ 0 →
        ∃ proc σ', rust_new_proc T σ rt prog = Outcome.ret (p, proc) σ' ∧
          (∀ x, x < stk_data T stk ∨ stk_data T stk + rust_init_stk_bytes ≤ x →
            σ'.mem x = rust_new_proc_mem0 T σ.mem p stk x) ∧
          σ'.mem = rust_new_proc_mem T σ.mem p stk)) := by
  have hw0 : 0 < T.word := by omega
  obtain ⟨h16, h1, h2⟩ := frame_base_bounds T stk hw0 hfit
  have h64 : T.word ≤ rust_init_stk_bytes := by
    unfold rust_init_stk_bytes
    omega
  refine ⟨⟨h16, ?_, by omega⟩, ?_⟩
  · unfold rust_init_stk_bytes at *
    omega
  · intro hN
    have e : (T.rust_n_calee_saves + 3) * T.word
        = (T.rust_n_calee_saves + 2) * T.word + T.word := by ring
    rw [e] at hN
    constructor
    · intro k hk
      have hk2 : k * T.word ≤ (T.rust_n_calee_saves + 2) * T.word :=
        Nat.mul_le_mul_right _ (by omega)
      generalize (T.rust_n_calee_saves + 2) * T.word = K at hN hk2
      generalize k * T.word = I at hk2 ⊢
      omega
    · intro σ rt prog p rest hh hp hs
      have hK : (T.rust_n_calee_saves + 2) * T.word ≤ frame_base T stk := by omega
      have hmem := rust_new_proc_mem_eq T hw0 σ.mem p stk hK
      refine ⟨_, _, rust_new_proc_eq T σ rt prog p stk rest hh hp hs, ?_, hmem⟩
      intro x hx
      show (rust_new_proc_frame T (rust_new_proc_mem0 T σ.mem p stk) (frame_base T stk) p).1 x
        = _
      rw [hmem]
      simp only [rust_new_proc_mem, store_word]
      rw [if_neg (by omega), if_neg (by omega)]

/-- C10, at a concrete input: the 64-bit target with `N = 4` and the segment at
`0x20000` (payload `[0x20020, 0x30020)`): the frame base is `0x30010`, and
the lowest cell of the frame, cell 6 at `0x2ffe0`, lies inside the payload. -/
theorem rust_new_proc_frame_in_payload_witness :
    (frame_base target64 0x20000 % 16 = 0 ∧
      stk_data target64 0x20000 ≤ frame_base target64 0x20000 ∧
      frame_base target64 0x20000 + 8 ≤ stk_data target64 0x20000 + rust_init_stk_bytes) ∧
    (6 * 8 ≤ frame_base target64 0x20000 ∧
      stk_data target64 0x20000 ≤ frame_base target64 0x20000 - 6 * 8 ∧
      frame_base target64 0x20000 - 6 * 8 + 8
        ≤ stk_data target64 0x20000 + rust_init_stk_bytes) := by
  have h := rust_new_proc_frame_in_payload target64 0x20000 (by decide) (by decide)
  exact ⟨h.1, (h.2 (by decide)).1 6 (by decide)⟩

/-! ## The request block -/

/-- C2, as stated, fails: with `N = 4` the loop takes the call code from cell 5
and the argument from cell 6, here `(0, 0x2A)`, and logs `0x2A`; the cells 6
and 7 hold `(0x2A, 7)`. -/
theorem rust_start_request_not_above_two_slots :
    rust_start_request target32 mem_request proc_request = (0, 0x2A) ∧
      (load_word 4 mem_request (0x1000 + (4 + 2) * 4),
        load_word 4 mem_request (0x1000 + (4 + 3) * 4)) = (0x2A, 7) ∧
      (rust_start_call_c target32
          { mem := mem_request, live := [], heap := [], out := [] }
          proc_request).out
        = [Event.log_uint32 0x2A] := by
  decide

/-- C2, amended. The loop reads the request block above the `N` callee-saved
slots and one reserved slot: the call code is the word at cell index `N + 1`
above `proc.regs.sp` and the argument is the word right after it (cell index
`N + 2`), for every `N` and every stack content; and when the trampoline returns
with the process in state `CALLING_C`, the loop body runs the `switch` on these
two words. -/
theorem rust_start_request_cells {τ : Type} (T : Target) (glue : Glue τ) (ptr : Nat) (t : τ)
    (proc : rust_proc_t) (σ : World) :
    (∀ m q, rust_start_request T m q =
      (load_word T.word m (q.regs.sp + (T.rust_n_calee_saves + 1) * T.word),
        load_word T.word m (q.regs.sp + (T.rust_n_calee_saves + 2) * T.word))) ∧
    (∀ t2 proc2 m2,
      glue t ptr { proc with state := RUST_PROC_STATE_RUNNING } σ.mem = (t2, proc2, m2) →
      proc2.state = RUST_PROC_STATE_CALLING_C →
      (rust_start_body T glue ptr t proc σ).2.2 =
        rust_start_call_c T
          { emit σ (Event.glue ptr RUST_PROC_STATE_RUNNING) with mem := m2 } proc2) := by
  constructor
  · intro m q
    unfold rust_start_request
    have e1 : q.regs.sp + T.rust_n_calee_saves * T.word + T.word
        = q.regs.sp + (T.rust_n_calee_saves + 1) * T.word := by ring
    have e2 : q.regs.sp + (T.rust_n_calee_saves + 1) * T.word + T.word
        = q.regs.sp + (T.rust_n_calee_saves + 2) * T.word := by ring
    simp only [e1, e2]
  · intro t2 proc2 m2 hg hs
    unfold rust_start_body
    simp only [emit] at hg ⊢
    rw [hg]
    simp only [hs, if_true]

/-- C2 amended, at a concrete input: after `glue_request` the loop body logs
the word of cell 6, `0x2A`. -/
theorem rust_start_request_cells_witness :
    (rust_start_body target32 glue_request 0x10000 () proc_request world0).2.2.out
      = [Event.glue 0x10000 RUST_PROC_STATE_RUNNING, Event.log_uint32 0x2A] := by
  have h := (rust_start_request_cells target32 glue_request 0x10000 () proc_request world0).2
    () proc_request mem_request rfl rfl
  rw [h]
  decide

/-! ## Stack segments -/

/-- C4, as stated, fails: the allocator of `world0` answers with memory that
holds `0xAA`, and after `rust_new_stk` the first and the last byte of the
payload still hold `0xAA`. -/
theorem rust_new_stk_payload_not_cleared :
    (Outcome.world (rust_new_stk target32 world0)).map
      (fun σ => (σ.mem (stk_data target32 0x10000), σ.mem (stk_data target32 0x10000 + 65535)))
      = some (0xAA, 0xAA) := by
  decide

/-- C4, amended. For every answer of the allocator other than `NULL`, whatever
the memory held before, `rust_new_stk` returns that block; its header holds
the size `sizeof(rust_stk_seg_t) + 65536` and a null `next` link, and every
byte of the payload still holds what it held before the call (the payload is
not cleared). -/
theorem rust_new_stk_segment (T : Target) (σ : World) (stk : Nat) (rest : List Nat)
    (h : σ.heap = stk :: rest) (hs : stk ≠ 0) (hl : T.header_ok)
    (hsz : T.sizeof_stk_seg + rust_init_stk_bytes < T.modulus) :
    ∃ σ', rust_new_stk T σ = Outcome.ret stk σ' ∧
      load_word T.word σ'.mem (stk + T.offsetof_size) = T.sizeof_stk_seg + rust_init_stk_bytes ∧
      load_word T.word σ'.mem (stk + T.offsetof_next) = 0 ∧
      (∀ i, i < rust_init_stk_bytes → σ'.mem (stk_data T stk + i) = σ.mem (stk_data T stk + i)) := by
  obtain ⟨h1, h2, h3⟩ := hl
  refine ⟨_, rust_new_stk_eq T σ stk rest h hs, ?_, ?_, ?_⟩
  · simp only [rust_new_stk_world, rust_new_stk_mem]
    rw [load_store_same, ← modulus_eq, Nat.mod_eq_of_lt hsz]
  · simp only [rust_new_stk_world, rust_new_stk_mem]
    rw [load_store_disjoint _ _ _ _ _ _ (by omega)]
    apply load_word_zero
    intro i hi
    simp only [memset]
    rw [if_pos (by omega)]
  · intro i _
    simp only [rust_new_stk_world, rust_new_stk_mem, store_word, memset, stk_data]
    rw [if_neg (by omega), if_neg (by omega)]

/-- C4 amended, at a concrete input: the segment at `0x10000` on the 32-bit
target has size `16 + 65536`, a null link, and a payload that starts with the
byte `0xAA` the allocator left there. -/
theorem rust_new_stk_segment_witness :
    ∃ σ', rust_new_stk target32 world0 = Outcome.ret 0x10000 σ' ∧
      load_word 4 σ'.mem (0x10000 + 8) = 16 + 65536 ∧
      load_word 4 σ'.mem (0x10000 + 4) = 0 ∧
      σ'.mem (0x10000 + 16) = 0xAA := by
  obtain ⟨σ', h1, h2, h3, h4⟩ :=
    rust_new_stk_segment target32 world0 0x10000 [0x20000, 0x40000] rfl (by decide)
      (by decide) (by decide)
  exact ⟨σ', h1, h2, h3, h4 0 (by decide)⟩

/-! ## Releasing segments and processes -/

theorem free_live (σ : World) (p : Nat) (h0 : p ≠ 0) (h : p ∈ σ.live) :
    free σ p = Outcome.ret ()
      { σ with live := σ.live.erase p, out := σ.out ++ [Event.free p] } := by
  unfold free
  rw [if_neg h0, if_pos h]
  rfl

theorem free_not_live (σ : World) (p : Nat) (h0 : p ≠ 0) (h : p ∉ σ.live) :
    free σ p = Outcome.stop (Fault.invalid_free p) { σ with out := σ.out ++ [Event.free p] } := by
  unfold free
  rw [if_neg h0, if_neg h]
  rfl

/-- The loop of `rust_del_stk` on a chain of `K >= 1` distinct live segments
releases each of them once, head to tail. -/
theorem rust_del_stk_loop_chain (T : Target) (l : List Nat) (hl : l ≠ []) (σ : World) (a : Nat)
    (hc : stk_chain T σ.mem a l = true) (hn : l.Nodup) (hlive : ∀ s, s ∈ l → s ∈ σ.live)
    (fuel : Nat) (hf : l.length ≤ fuel) :
    rust_del_stk_loop T fuel σ a =
      Outcome.ret () { σ with live := l.foldl List.erase σ.live,
                              out := σ.out ++ del_stk_events l } := by
  induction l generalizing σ a fuel with
  | nil => exact absurd rfl hl
  | cons b l ih =>
    cases fuel with
    | zero => simp at hf
    | succ fuel =>
      simp only [stk_chain, Bool.and_eq_true, beq_iff_eq, bne_iff_ne, ne_eq] at hc
      obtain ⟨⟨hab, ha0⟩, hrest⟩ := hc
      subst hab
      have hfree : free (logptr σ "freeing stk segment" a) a = Outcome.ret ()
          { σ with live := σ.live.erase a,
                   out := σ.out ++ [Event.logptr "freeing stk segment" a, Event.free a] } := by
        rw [free_live (logptr σ "freeing stk segment" a) a ha0
          (hlive a (List.mem_cons_self _ _))]
        simp [logptr, emit]
      unfold rust_del_stk_loop
      rw [if_neg ha0]
      simp only [hfree]
      cases l with
      | nil =>
        simp only [stk_chain, beq_iff_eq] at hrest
        have hz : ¬ (load_word T.word σ.mem (a + T.offsetof_next) ≠ 0) := by simp [hrest]
        rw [if_neg hz]
        simp [del_stk_events]
      | cons c l =>
        have hn0 : load_word T.word σ.mem (a + T.offsetof_next) ≠ 0 := by
          simp only [stk_chain, Bool.and_eq_true, beq_iff_eq, bne_iff_ne, ne_eq] at hrest
          exact hrest.1.2
        rw [if_pos hn0]
        have hnd := List.nodup_cons.mp hn
        have hlive2 : ∀ s, s ∈ c :: l → s ∈ σ.live.erase a := by
          intro s hs
          have hne : s ≠ a := by
            rintro rfl
            exact hnd.1 hs
          exact (List.mem_erase_of_ne hne).mpr (hlive s (List.mem_cons_of_mem _ hs))
        rw [ih (by simp)
          { σ with live := σ.live.erase a,
                   out := σ.out ++ [Event.logptr "freeing stk segment" a, Event.free a] }
          (load_word T.word σ.mem (a + T.offsetof_next)) hrest hnd.2 hlive2
          fuel (by simpa using hf)]
        simp [del_stk_events]

theorem mem_of_mem_foldl_erase (l : List Nat) (live : List Nat) (x : Nat)
    (h : x ∈ l.foldl List.erase live) : x ∈ live := by
  induction l generalizing live with
  | nil => exact h
  | cons b l ih => exact List.mem_of_mem_erase (ih _ h)

theorem not_mem_foldl_erase (l : List Nat) (live : List Nat) (x : Nat) (hn : live.Nodup)
    (hx : x ∈ l) : x ∉ l.foldl List.erase live := by
  induction l generalizing live with
  | nil => simp at hx
  | cons b l ih =>
    rcases List.mem_cons.mp hx with h | h
    · subst h
      intro hm
      exact (List.Nodup.not_mem_erase hn) (mem_of_mem_foldl_erase l _ x hm)
    · exact ih _ (hn.erase b) h

/-- What `rust_del_proc` does to a process with reference count zero whose
chain is `l`, all of it live: every segment of the chain is released once by
`rust_del_stk`, then the head segment `proc->stk`, no longer live, is given to
`free` again; the process record is not released. -/
theorem rust_del_proc_chain (T : Target) (l : List Nat) (hl : l ≠ []) (σ : World)
    (proc : rust_proc_t) (hr : proc.refcnt = 0) (hc : stk_chain T σ.mem proc.stk l = true)
    (hn : l.Nodup) (hlive : ∀ s, s ∈ l → s ∈ σ.live) (hnl : σ.live.Nodup) (fuel : Nat)
    (hf : l.length ≤ fuel) :
    rust_del_proc T fuel σ proc =
      Outcome.stop (Fault.invalid_free proc.stk)
        { σ with live := l.foldl List.erase σ.live,
                 out := σ.out ++ del_stk_events l
                   ++ [Event.print "rt: freed stacks.", Event.free proc.stk] } := by
  have hhead : proc.stk ∈ l ∧ proc.stk ≠ 0 := by
    cases l with
    | nil => exact absurd rfl hl
    | cons b l =>
      simp only [stk_chain, Bool.and_eq_true, beq_iff_eq, bne_iff_ne, ne_eq] at hc
      exact ⟨by rw [hc.1.1]; exact List.mem_cons_self _ _, hc.1.2⟩
  unfold rust_del_proc rust_del_stk
  rw [if_neg (by simp [hr]), rust_del_stk_loop_chain T l hl σ proc.stk hc hn hlive fuel hf]
  simp only
  rw [free_not_live _ _ hhead.2 (by
    simp only [emit]
    exact not_mem_foldl_erase l σ.live proc.stk hnl hhead.1)]
  simp [emit]

/-- A failing `assert` is the first thing in `rust_del_proc`: with a reference
count other than zero the run ends in the world the function was called in. -/
theorem rust_del_proc_asserts (T : Target) (fuel : Nat) (σ : World) (proc : rust_proc_t)
    (h : proc.refcnt ≠ 0) : rust_del_proc T fuel σ proc = Outcome.stop Fault.assert_failed σ := by
  unfold rust_del_proc
  rw [if_pos h]

/-- C5, on the code: the process that `rust_new_proc` creates on the 32-bit
target (reference count zero, one segment at `0x20000`, record at `0x10000`)
is given to `rust_del_proc`: the segment goes to `free` twice, the second time
when it is no longer live, which ends the run; the process record does not go
to `free` at all and is still allocated. -/
theorem rust_del_proc_frees_segment_twice :
    (Outcome.fault
        (match rust_new_proc target32 world0 0 prog0 with
          | Outcome.ret (_, proc) σ => rust_del_proc target32 1 σ proc
          | Outcome.stop f σ => Outcome.stop f σ
          | Outcome.timeout => Outcome.timeout),
      (Outcome.final
        (match rust_new_proc target32 world0 0 prog0 with
          | Outcome.ret (_, proc) σ => rust_del_proc target32 1 σ proc
          | Outcome.stop f σ => Outcome.stop f σ
          | Outcome.timeout => Outcome.timeout)).map (fun σ => (σ.out, σ.live)))
      = (some (Fault.invalid_free 0x20000),
         some ([Event.logptr "new proc" 0x10000, Event.logptr "new stk" 0x20000,
                Event.logptr "freeing stk segment" 0x20000, Event.free 0x20000,
                Event.print "rt: freed stacks.", Event.free 0x20000],
               [0x10000])) := by
  decide

/-- C8, on the code. With two references `rust_del_proc` ends at the failed
`assert` with nothing printed and every block still live. With no reference and
a chain of two live segments the `assert` passes, `rust_del_stk` releases both
segments, and then the head segment, no longer live, is given to `free` again:
the run ends there and `rust_del_proc` does not return. -/
theorem rust_del_proc_fails_without_references :
    (Outcome.fault (rust_del_proc target32 2 world_chain proc_referenced),
      (Outcome.final (rust_del_proc target32 2 world_chain proc_referenced)).map
        (fun σ => (σ.out, σ.live)))
      = (some Fault.assert_failed, some ([], [0x50000, 0x20000, 0x10000])) ∧
    (Outcome.fault (rust_del_proc target32 2 world_chain proc_request),
      (Outcome.final (rust_del_proc target32 2 world_chain proc_request)).map
        (fun σ => (σ.out, σ.live)))
      = (some (Fault.invalid_free 0x20000),
         some ([Event.logptr "freeing stk segment" 0x20000, Event.free 0x20000,
                Event.logptr "freeing stk segment" 0x50000, Event.free 0x50000,
                Event.print "rt: freed stacks.", Event.free 0x20000],
               [0x10000])) := by
  decide

/-! ## The foreign-call dispatch -/

theorem c_string_of_text (m : Nat → Nat) (text : List Nat) (a n : Nat)
    (h : holds_text m a text = true) (hn : text.length < n) : c_string m a n = text := by
  induction text generalizing a n with
  | nil =>
    cases n with
    | zero => simp at hn
    | succ n =>
      simp only [holds_text, beq_iff_eq] at h
      simp [c_string, h]
  | cons c l ih =>
    cases n with
    | zero => simp at hn
    | succ n =>
      simp only [holds_text, Bool.and_eq_true, bne_iff_ne, ne_eq, beq_iff_eq] at h
      obtain ⟨⟨hc, hm⟩, hl⟩ := h
      have hne : ¬ m a % 256 = 0 := by rw [hm]; exact hc
      simp only [c_string]
      rw [if_neg hne, hm, ih (a + 1) n hl (by simpa using hn)]

theorem rust_start_call_c_eq (T : Target) (σ : World) (proc : rust_proc_t) :
    rust_start_call_c T σ proc =
      if (rust_start_request T σ.mem proc).1 = 0 then
        rust_log_uint32_t σ (rust_start_request T σ.mem proc).2
      else if (rust_start_request T σ.mem proc).1 = 1 then
        rust_log_str T σ (rust_start_request T σ.mem proc).2
      else σ := rfl

/-- C6. For every call code `c` and argument word `a` of the request block the
dispatch step does one thing: for `c = 0` it appends exactly one entry carrying
`a mod 2^32`; for `c = 1` exactly one entry carrying the zero-terminated text at
`a`; for any other `c` nothing. Raw memory (and with it the request block), the
other parts of the world, and the process record (lifecycle state, register
context) that the trampoline returned are left as they were. -/
theorem rust_start_call_c_action {τ : Type} (T : Target) (σ : World) (proc : rust_proc_t)
    (glue : Glue τ) (ptr : Nat) (t : τ) :
    ((rust_start_request T σ.mem proc).1 = 0 →
        rust_start_call_c T σ proc
          = emit σ (Event.log_uint32 ((rust_start_request T σ.mem proc).2 % 2 ^ 32))) ∧
    ((rust_start_request T σ.mem proc).1 = 1 → ∀ text,
        holds_text σ.mem (rust_start_request T σ.mem proc).2 text = true →
        (rust_start_request T σ.mem proc).2 + text.length < T.modulus →
        rust_start_call_c T σ proc = emit σ (Event.log_str text)) ∧
    ((rust_start_request T σ.mem proc).1 ≠ 0 → (rust_start_request T σ.mem proc).1 ≠ 1 →
        rust_start_call_c T σ proc = σ) ∧
    ((rust_start_call_c T σ proc).mem = σ.mem ∧
      (rust_start_call_c T σ proc).live = σ.live ∧
      (rust_start_call_c T σ proc).heap = σ.heap) ∧
    ((rust_start_body T glue ptr t proc σ).2.1
        = (glue t ptr { proc with state := RUST_PROC_STATE_RUNNING } σ.mem).2.1 ∧
      (rust_start_body T glue ptr t proc σ).2.2.mem
        = (glue t ptr { proc with state := RUST_PROC_STATE_RUNNING } σ.mem).2.2) := by
  have hmem : ∀ (σ : World) (q : rust_proc_t),
      (rust_start_call_c T σ q).mem = σ.mem ∧
      (rust_start_call_c T σ q).live = σ.live ∧ (rust_start_call_c T σ q).heap = σ.heap := by
    intro σ q
    rw [rust_start_call_c_eq]
    split_ifs <;> simp [rust_log_uint32_t, rust_log_str, emit]
  refine ⟨?_, ?_, ?_, hmem σ proc, ?_⟩
  · intro h0
    rw [rust_start_call_c_eq, if_pos h0]
    rfl
  · intro h1 text ht hlen
    rw [rust_start_call_c_eq, if_neg (by omega), if_pos h1]
    unfold rust_log_str
    rw [c_string_of_text σ.mem text _ _ ht (by omega)]
  · intro h0 h1
    rw [rust_start_call_c_eq, if_neg h0, if_neg h1]
  · unfold rust_start_body
    simp only [emit]
    split_ifs <;> simp [(hmem _ _).1]

/-- C6, at concrete inputs: call code 0 with argument `0x2A` appends exactly
the entry with value 42; call code 1 with a pointer to the bytes of "hello"
appends exactly the entry with that text. -/
theorem rust_start_call_c_action_witness :
    rust_start_call_c target32 world_request proc_request
        = emit world_request (Event.log_uint32 42) ∧
      rust_start_call_c target32 world_hello proc_request
        = emit world_hello (Event.log_str [104, 101, 108, 108, 111]) :=
  ⟨(rust_start_call_c_action target32 world_request proc_request glue_request 0x10000 ()).1
      (by decide),
   (rust_start_call_c_action target32 world_hello proc_request glue_request 0x10000 ()).2.1
      (by decide) [104, 101, 108, 108, 111] (by decide) (by decide)⟩

/-! ## The control-transfer loop -/

theorem rust_start_call_c_events (T : Target) (σ : World) (proc : rust_proc_t) :
    rust_start_call_c T σ proc = { σ with out := σ.out ++ call_c_events T σ.mem proc } := by
  have hreq : rust_start_request T σ.mem proc =
      (load_word T.word σ.mem (proc.regs.sp + (T.rust_n_calee_saves + 1) * T.word),
        load_word T.word σ.mem (proc.regs.sp + (T.rust_n_calee_saves + 2) * T.word)) := by
    unfold rust_start_request
    have e1 : proc.regs.sp + T.rust_n_calee_saves * T.word + T.word
        = proc.regs.sp + (T.rust_n_calee_saves + 1) * T.word := by ring
    have e2 : proc.regs.sp + (T.rust_n_calee_saves + 1) * T.word + T.word
        = proc.regs.sp + (T.rust_n_calee_saves + 2) * T.word := by ring
    simp only [e1, e2]
  rw [rust_start_call_c_eq, hreq]
  unfold call_c_events
  simp only
  split_ifs <;> simp [rust_log_uint32_t, rust_log_str, emit]

theorem rust_start_body_eq {τ : Type} (T : Target) (glue : Glue τ) (ptr : Nat) (t : τ)
    (p : rust_proc_t) (σ : World) :
    rust_start_body T glue ptr t p σ =
      ((glue_returns glue ptr 0 t p σ.mem).1, (glue_returns glue ptr 0 t p σ.mem).2.1,
        { σ with mem := (glue_returns glue ptr 0 t p σ.mem).2.2,
                 out := σ.out ++ round_events T glue ptr t p σ.mem 0 }) := by
  unfold rust_start_body round_events
  simp only [glue_returns, emit]
  split_ifs with h
  · rw [rust_start_call_c_events]
    simp
  · simp

theorem loop_events_succ {τ : Type} (T : Target) (glue : Glue τ) (ptr : Nat) (t : τ)
    (p : rust_proc_t) (m : Nat → Nat) (n : Nat) :
    loop_events T glue ptr t p m (n + 1) =
      round_events T glue ptr t p m 0 ++
        loop_events T glue ptr (glue_returns glue ptr 0 t p m).1
          (glue_returns glue ptr 0 t p m).2.1 (glue_returns glue ptr 0 t p m).2.2 n := by
  unfold loop_events
  rw [List.range_succ_eq_map, List.flatMap_cons, List.flatMap_map]
  rfl

/-- The loop of `rust_start`, run to its end: when the `(n+1)`-th return of the
trampoline is the first one in state `EXITING`, the loop ends there, and its
trace is the trace of `n + 1` rounds. -/
theorem rust_start_loop_run {τ : Type} (T : Target) (glue : Glue τ) (ptr : Nat) (n : Nat) :
    ∀ (fuel : Nat) (t : τ) (p : rust_proc_t) (σ : World), n < fuel →
      (∀ i, i < n → (glue_returns glue ptr i t p σ.mem).2.1.state ≠ RUST_PROC_STATE_EXITING) →
      (glue_returns glue ptr n t p σ.mem).2.1.state = RUST_PROC_STATE_EXITING →
      rust_start_loop T glue ptr fuel t p σ =
        Outcome.ret ((glue_returns glue ptr n t p σ.mem).1, (glue_returns glue ptr n t p σ.mem).2.1)
          { σ with mem := (glue_returns glue ptr n t p σ.mem).2.2,
                   out := σ.out ++ loop_events T glue ptr t p σ.mem (n + 1) } := by
  induction n with
  | zero =>
    intro fuel t p σ hf _ hlast
    cases fuel with
    | zero => omega
    | succ fuel =>
      unfold rust_start_loop
      rw [rust_start_body_eq]
      simp only [hlast, ne_eq, not_true_eq_false, if_false]
      rw [loop_events, show List.range (0 + 1) = [0] from rfl]
      simp
  | succ n ih =>
    intro fuel t p σ hf hbefore hlast
    cases fuel with
    | zero => omega
    | succ fuel =>
      unfold rust_start_loop
      rw [rust_start_body_eq]
      have h0 := hbefore 0 (Nat.succ_pos n)
      simp only [ne_eq, h0, not_false_eq_true, if_true]
      have hb : ∀ i, i < n →
          (glue_returns glue ptr i (glue_returns glue ptr 0 t p σ.mem).1
            (glue_returns glue ptr 0 t p σ.mem).2.1
            (glue_returns glue ptr 0 t p σ.mem).2.2).2.1.state ≠ RUST_PROC_STATE_EXITING :=
        fun i hi => hbefore (i + 1) (by omega)
      have hl : (glue_returns glue ptr n (glue_returns glue ptr 0 t p σ.mem).1
            (glue_returns glue ptr 0 t p σ.mem).2.1
            (glue_returns glue ptr 0 t p σ.mem).2.2).2.1.state = RUST_PROC_STATE_EXITING :=
        hlast
      rw [ih fuel (glue_returns glue ptr 0 t p σ.mem).1 (glue_returns glue ptr 0 t p σ.mem).2.1
        { σ with mem := (glue_returns glue ptr 0 t p σ.mem).2.2,
                 out := σ.out ++ round_events T glue ptr t p σ.mem 0 }
        (by omega) hb hl]
      rw [loop_events_succ T glue ptr t p σ.mem (n + 1)]
      simp only [glue_returns, List.append_assoc]

theorem call_c_events_no_glue (T : Target) (m : Nat → Nat) (proc : rust_proc_t) :
    (call_c_events T m proc).countP Event.is_glue = 0 := by
  unfold call_c_events
  split_ifs <;> simp [Event.is_glue]

theorem loop_events_count {τ : Type} (T : Target) (glue : Glue τ) (ptr : Nat) (t : τ)
    (p : rust_proc_t) (m : Nat → Nat) (n : Nat) :
    (loop_events T glue ptr t p m n).countP Event.is_glue = n := by
  induction n generalizing t p m with
  | zero => simp [loop_events]
  | succ n ih =>
    rw [loop_events_succ, List.countP_append, ih]
    unfold round_events
    rw [List.countP_cons]
    split_ifs <;> simp_all [Event.is_glue, call_c_events_no_glue] <;> omega

theorem glue_states_append (l1 l2 : List Event) :
    glue_states (l1 ++ l2) = glue_states l1 ++ glue_states l2 := by
  induction l1 with
  | nil => rfl
  | cons e l ih => cases e <;> simp [glue_states, ih]

theorem glue_states_call_c (T : Target) (m : Nat → Nat) (proc : rust_proc_t) :
    glue_states (call_c_events T m proc) = [] := by
  unfold call_c_events
  split_ifs <;> rfl

/-- Every invocation of the trampoline that the loop adds to the trace is in
state `RUNNING`. -/
theorem rust_start_loop_glue_states {τ : Type} (T : Target) (glue : Glue τ) (ptr : Nat)
    (fuel : Nat) :
    ∀ (t : τ) (p : rust_proc_t) (σ : World) (r : τ × rust_proc_t) (σ' : World),
      rust_start_loop T glue ptr fuel t p σ = Outcome.ret r σ' →
      ∃ new, σ'.out = σ.out ++ new ∧
        ∀ s, s ∈ glue_states new → s = RUST_PROC_STATE_RUNNING := by
  induction fuel with
  | zero =>
    intro t p σ r σ' h
    simp [rust_start_loop] at h
  | succ fuel ih =>
    intro t p σ r σ' h
    unfold rust_start_loop at h
    rw [rust_start_body_eq] at h
    simp only at h
    have hround : ∀ s, s ∈ glue_states (round_events T glue ptr t p σ.mem 0) →
        s = RUST_PROC_STATE_RUNNING := by
      intro s hs
      unfold round_events at hs
      split_ifs at hs <;> simp_all [glue_states, glue_states_call_c]
    split_ifs at h with hst
    · obtain ⟨new, hout, hnew⟩ := ih _ _ _ _ _ h
      refine ⟨round_events T glue ptr t p σ.mem 0 ++ new, ?_, ?_⟩
      · rw [hout, List.append_assoc]
      · intro s hs
        rw [glue_states_append, List.mem_append] at hs
        rcases hs with hs | hs
        · exact hround s hs
        · exact hnew s hs
    · simp only [Outcome.ret.injEq] at h
      refine ⟨round_events T glue ptr t p σ.mem 0, ?_, hround⟩
      rw [← h.2]

/-- The loop does not depend on the state the process record has when a round
starts. -/
theorem rust_start_loop_forces_running {τ : Type} (T : Target) (glue : Glue τ) (ptr : Nat)
    (fuel : Nat) (t : τ) (p : rust_proc_t) (σ : World) (s : rust_proc_state_t) :
    rust_start_loop T glue ptr fuel t { p with state := s } σ
      = rust_start_loop T glue ptr fuel t p σ := by
  cases fuel with
  | zero => rfl
  | succ fuel =>
    unfold rust_start_loop
    rfl

theorem rust_new_proc_ret_rec (T : Target) (σ σ' : World) (rt : Nat) (prog : rust_prog_t)
    (p : Nat) (proc : rust_proc_t) (h : rust_new_proc T σ rt prog = Outcome.ret (p, proc) σ') :
    ∃ stk, proc = rust_new_proc_rec T rt prog stk := by
  obtain ⟨stk, _, _, _, _, hrec, _⟩ := rust_new_proc_spec T σ σ' rt prog p proc h
  exact ⟨stk, hrec⟩

/-- C9. In the loop of `rust_start` every invocation of the trampoline is made
with the process in state `RUNNING`: the record handed to the trampoline has
that state whatever state the round started with, the process `rust_new_proc`
returns is in state `RUNNING`, and every invocation the loop records is in
state `RUNNING`. When the trampoline returns in state `CALLING_C`, the record is
still in state `CALLING_C` after the dispatch, at the end of the round; the
loop goes on with that record and the state becomes `RUNNING` only at the
start of the next round. -/
theorem rust_start_loop_state {τ : Type} (T : Target) (glue : Glue τ) (ptr : Nat) (t : τ)
    (p : rust_proc_t) (σ : World) :
    (∀ s fuel, rust_start_loop T glue ptr fuel t { p with state := s } σ
      = rust_start_loop T glue ptr fuel t p σ) ∧
    ((rust_start_body T glue ptr t p σ).2.1
        = (glue t ptr { p with state := RUST_PROC_STATE_RUNNING } σ.mem).2.1 ∧
      ∃ l, (rust_start_body T glue ptr t p σ).2.2.out
        = σ.out ++ Event.glue ptr RUST_PROC_STATE_RUNNING :: l ∧ glue_states l = []) ∧
    (∀ fuel r σ', rust_start_loop T glue ptr fuel t p σ = Outcome.ret r σ' →
      ∃ new, σ'.out = σ.out ++ new ∧ ∀ s, s ∈ glue_states new → s = RUST_PROC_STATE_RUNNING) ∧
    (∀ rt prog q proc σ', rust_new_proc T σ rt prog = Outcome.ret (q, proc) σ' →
      proc.state = RUST_PROC_STATE_RUNNING) ∧
    ((glue t ptr { p with state := RUST_PROC_STATE_RUNNING } σ.mem).2.1.state
        = RUST_PROC_STATE_CALLING_C →
      (rust_start_body T glue ptr t p σ).2.1.state = RUST_PROC_STATE_CALLING_C ∧
      ∀ fuel, rust_start_loop T glue ptr (fuel + 1) t p σ =
        rust_start_loop T glue ptr fuel (rust_start_body T glue ptr t p σ).1
          (rust_start_body T glue ptr t p σ).2.1 (rust_start_body T glue ptr t p σ).2.2) := by
  have hbody : (rust_start_body T glue ptr t p σ).2.1
      = (glue t ptr { p with state := RUST_PROC_STATE_RUNNING } σ.mem).2.1 := by
    rw [rust_start_body_eq]
    rfl
  refine ⟨fun s fuel => rust_start_loop_forces_running T glue ptr fuel t p σ s, ⟨hbody, ?_⟩,
    fun fuel r σ' h => rust_start_loop_glue_states T glue ptr fuel t p σ r σ' h, ?_, ?_⟩
  · rw [rust_start_body_eq]
    unfold round_events
    refine ⟨_, rfl, ?_⟩
    split_ifs
    · exact glue_states_call_c T _ _
    · rfl
  · intro rt prog q proc σ' h
    obtain ⟨stk, hrec⟩ := rust_new_proc_ret_rec T σ σ' rt prog q proc h
    rw [hrec]
    rfl
  · intro hc
    refine ⟨by rw [hbody]; exact hc, ?_⟩
    intro fuel
    conv_lhs => unfold rust_start_loop
    have hne : (rust_start_body T glue ptr t p σ).2.1.state ≠ RUST_PROC_STATE_EXITING := by
      rw [hbody, hc]
      decide
    simp only [hne, ne_eq, not_false_eq_true, if_true]

/-- C9, at concrete inputs: a round that starts in state `CALLING_C` hands the
trampoline `glue_call_then_exit` a process in state `RUNNING`; the trampoline
returns in state `CALLING_C`, which is still the state after the dispatch; and
a loop started in state `EXITING` runs like one started in state
`CALLING_C`. -/
theorem rust_start_loop_state_witness :
    (rust_start_body target32 glue_call_then_exit 0x10000 0 proc_request world_request).2.1.state
        = RUST_PROC_STATE_CALLING_C ∧
      rust_start_loop target32 glue_call_then_exit 0x10000 2 0
          { proc_request with state := RUST_PROC_STATE_EXITING } world_request
        = rust_start_loop target32 glue_call_then_exit 0x10000 2 0 proc_request world_request :=
  ⟨((rust_start_loop_state target32 glue_call_then_exit 0x10000 0 proc_request
      world_request).2.2.2.2 (by decide)).1,
   (rust_start_loop_state target32 glue_call_then_exit 0x10000 0 proc_request world_request).1
      RUST_PROC_STATE_EXITING 2⟩

/-- C7, on the code: `rust_start` on the 32-bit target with a process that sets
`EXITING` at once (runtime context at `0x10000`, process record at `0x20000`,
segment at `0x40000`). The loop invokes the trampoline once and dispatches
nothing; then `rust_del_proc` releases the segment through `rust_del_stk` and
gives it to `free` again, when it is no longer live. The run ends there:
"rt: freed proc." is not printed, `rust_del_rt` is not reached, 37 is not
returned, and the process record and the runtime context are still
allocated. -/
theorem rust_start_exit_frees_segment_twice :
    (Outcome.value (rust_start target32 1 world0 prog0 exit_glue 0x3000 ()),
      Outcome.fault (rust_start target32 1 world0 prog0 exit_glue 0x3000 ()),
      (Outcome.final (rust_start target32 1 world0 prog0 exit_glue 0x3000 ())).map
        (fun σ => (σ.out, σ.live)))
      = (none, some (Fault.invalid_free 0x40000),
         some (start_events target32 prog0 0x3000 0x10000 0x20000 0x40000
                 ++ [Event.glue 0x20000 RUST_PROC_STATE_RUNNING,
                     Event.print "rt: proc assumed exiting state.",
                     Event.logptr "freeing stk segment" 0x40000, Event.free 0x40000,
                     Event.print "rt: freed stacks.", Event.free 0x40000],
               [0x20000, 0x10000])) := by
  decide

end Rust
